import Mathlib

/-!
Verification development for the thin-shell demons mesh-registration metric
(itkThinShellDemonsMetric.hxx).

The embedding models ITK double-precision points as exact rational triples,
meshes as ordered lists of points (identifier = list position), and the
target map as an association list mirroring the itk::MapContainer member
targetMap.  C++ exceptions (itkExceptionMacro) become Except.error; C++
undefined behaviour (null-pointer dereference, use of a never-assigned
local, out-of-bounds element access) is modelled by Except.error or, for
the never-assigned local targetPoint of ComputeTargetPosition, by an
Option value that is none exactly when the C++ local was never written.
-/

set_option autoImplicit false
set_option linter.unusedVariables false

/-- A 3D point with exact rational coordinates standing in for ITK's
double-precision Point type. -/
structure Point where
  x : ℚ
  y : ℚ
  z : ℚ
deriving DecidableEq

instance : Inhabited Point := ⟨⟨0, 0, 0⟩⟩

/-- itk::Point::SquaredEuclideanDistanceTo: the squared Euclidean distance
between two points. -/
def sqDist (a b : Point) : ℚ :=
  (a.x - b.x) * (a.x - b.x) + (a.y - b.y) * (a.y - b.y) +
    (a.z - b.z) * (a.z - b.z)

/-- The external transform collaborator: a point map that depends on the
transform's currently cached parameter vector (TransformPoint), plus the
cached parameters themselves (written by the parameter setter). -/
structure Transform where
  pointMap : List ℚ → Point → Point
  params : List ℚ

/-- m_Transform->TransformPoint(p): apply the point map at the currently
cached parameters. -/
def Transform.transformPoint (T : Transform) (p : Point) : Point :=
  T.pointMap T.params p

/-- The metric object's state: the three configurable collaborators
(m_Transform, m_FixedMesh, m_MovingMesh, each possibly unset), the
targetMap member (association list from moving-vertex identifier to the
recorded target point; the value is none when the C++ local targetPoint
was never assigned during the scan), and the m_TargetPositionComputed
flag. -/
structure MetricState where
  m_Transform : Option Transform
  m_FixedMesh : Option (List Point)
  m_MovingMesh : Option (List Point)
  targetMap : List (ℕ × Option Point)
  m_TargetPositionComputed : Bool

/-- std::map-style assignment targetMap[k] = v: replace the value at an
existing key, otherwise append the new pair. -/
def mapAssign (m : List (ℕ × Option Point)) (k : ℕ) (v : Option Point) :
    List (ℕ × Option Point) :=
  match m with
  | [] => [(k, v)]
  | (k', v') :: rest =>
    if k' = k then (k', v) :: rest else (k', v') :: mapAssign rest k v

/-- targetMap.ElementAt(k): look a key up in the association list; none
when the key has no entry (in C++ such an access is invalid). -/
def mapLookup (m : List (ℕ × Option Point)) (k : ℕ) : Option (Option Point) :=
  match m with
  | [] => none
  | (k', v') :: rest => if k' = k then some v' else mapLookup rest k

/-- The comparison dist < minimumDistance of the inner scan, where
minimumDistance starts at NumericTraits<double>::max(): none stands for
that initial maximum, which every candidate distance beats. -/
def distLtMin (d : ℚ) : Option ℚ → Bool
  | none => true
  | some m => decide (d < m)

/-- The inner while loop of ComputeTargetPosition over the fixed-mesh
points: track the best candidate (none while targetPoint is still the
never-assigned C++ local) and the minimum distance so far, updating both
only on a strictly smaller distance. -/
def scanLoop (transformedPoint : Point) :
    List Point → Option Point → Option ℚ → Option Point
  | [], best, _ => best
  | f :: rest, best, minD =>
    let dist := sqDist f transformedPoint
    if distLtMin dist minD then
      scanLoop transformedPoint rest (some f) (some dist)
    else
      scanLoop transformedPoint rest best minD

/-- The full inner scan, started from the uninitialized targetPoint local
and minimumDistance = max: returns the recorded target point, or none when
the loop body never assigned it (empty fixed point list). -/
def nearestScan (transformedPoint : Point) (fixedPts : List Point) : Option Point :=
  scanLoop transformedPoint fixedPts none none

/-- The outer while loop of ComputeTargetPosition over the moving-mesh
points: for each vertex, transform its nominal position with m_Transform
(a null m_Transform would be dereferenced here, modelled as an error),
scan the fixed points, and assign targetMap[identifier]. -/
def targetLoop (transform : Option Transform) (fixedPts : List Point) :
    List Point → ℕ → List (ℕ × Option Point) →
    Except String (List (ℕ × Option Point))
  | [], _, m => .ok m
  | p :: rest, identifier, m =>
    match transform with
    | none => .error "null m_Transform dereferenced"
    | some T =>
      let transformedPoint := T.transformPoint p
      let targetPoint := nearestScan transformedPoint fixedPts
      targetLoop transform fixedPts rest (identifier + 1)
        (mapAssign m identifier targetPoint)

/-- ComputeTargetPosition: check the fixed then the moving mesh, clear
targetMap (targetMap.Initialize()), run the correspondence loop, and set
m_TargetPositionComputed. -/
def ComputeTargetPosition (s : MetricState) : Except String MetricState :=
  match s.m_FixedMesh with
  | none => .error "Fixed point set has not been assigned"
  | some fixedPts =>
    match s.m_MovingMesh with
    | none => .error "Moving point set has not been assigned"
    | some movingPts =>
      match targetLoop s.m_Transform fixedPts movingPts 0 [] with
      | .error e => .error e
      | .ok tm =>
        .ok { s with targetMap := tm, m_TargetPositionComputed := true }

/-- Initialize: check m_Transform, m_MovingMesh, m_FixedMesh in that
order (each absence throws before any state is mutated), then compute the
target positions.  The GetSource()/Update() calls are omitted: meshes are
modelled as already materialized point lists. -/
def Initialize (s : MetricState) : Except String MetricState :=
  match s.m_Transform with
  | none => .error "Transform is not present"
  | some _ =>
    match s.m_MovingMesh with
    | none => .error "MovingMesh is not present"
    | some _ =>
      match s.m_FixedMesh with
      | none => .error "FixedMesh is not present"
      | some _ => ComputeTargetPosition s

/-- Modelled from the spec: the superclass parameter setter called by
GetValue ("internally caching the supplied parameters into the transform's
state (a setter call)") is not part of this repository's sources; per the
spec's error taxonomy a missing transform is a configuration error, so the
setter fails when m_Transform is unset and otherwise caches the parameter
vector into the transform. -/
def SetTransformParameters (s : MetricState) (parameters : List ℚ) :
    Except String MetricState :=
  match s.m_Transform with
  | none => .error "Transform has not been assigned"
  | some T =>
    .ok { s with m_Transform := some { T with params := parameters } }

/-- The accumulation loop of GetValue: per vertex, read the three
displacement components from the parameter vector (an out-of-range C++
read is undefined behaviour; getD's default is never relied upon by any
theorem below), displace the nominal position, look the target up in
targetMap (a missing entry, or an entry recording the never-assigned
targetPoint local, is undefined behaviour modelled as an error), and add
the squared distance. -/
def valueLoop (tm : List (ℕ × Option Point)) (parameters : List ℚ) :
    List Point → ℕ → ℚ → Except String ℚ
  | [], _, acc => .ok acc
  | p :: rest, identifier, acc =>
    let v0 := parameters.getD (identifier * 3) 0
    let v1 := parameters.getD (identifier * 3 + 1) 0
    let v2 := parameters.getD (identifier * 3 + 2) 0
    let transformedPoint : Point := ⟨p.x + v0, p.y + v1, p.z + v2⟩
    match mapLookup tm identifier with
    | none => .error "targetMap has no element at identifier"
    | some none => .error "target point was never assigned"
    | some (some targetPoint) =>
      valueLoop tm parameters rest (identifier + 1)
        (acc + sqDist targetPoint transformedPoint)

/-- GetValue: check the fixed then the moving mesh, cache the parameters
into the transform (SetTransformParameters), then accumulate the data
fidelity energy; returns the energy together with the state after the
setter call. -/
def GetValue (s : MetricState) (parameters : List ℚ) :
    Except String (ℚ × MetricState) :=
  match s.m_FixedMesh with
  | none => .error "Fixed point set has not been assigned"
  | some _ =>
    match s.m_MovingMesh with
    | none => .error "Moving point set has not been assigned"
    | some movingPts =>
      match SetTransformParameters s parameters with
      | .error e => .error e
      | .ok s' =>
        match valueLoop s.targetMap parameters movingPts 0 0 with
        | .error e => .error e
        | .ok v => .ok (v, s')

/-- The write loop of GetDerivative: per vertex, the displacement is read
from the parameter vector and the displaced point computed, but both are
dead values; the written gradient uses distVec = targetPoint - inputPoint
with the nominal (undisplaced) inputPoint.  List.set leaves the list
unchanged on an out-of-range index, standing in for the C++ out-of-bounds
write (undefined behaviour) that occurs when the buffer is too small. -/
def derivLoop (tm : List (ℕ × Option Point)) (parameters : List ℚ) :
    List Point → ℕ → List ℚ → Except String (List ℚ)
  | [], _, derivative => .ok derivative
  | p :: rest, identifier, derivative =>
    let v0 := parameters.getD (identifier * 3) 0
    let v1 := parameters.getD (identifier * 3 + 1) 0
    let v2 := parameters.getD (identifier * 3 + 2) 0
    let transformedPoint : Point := ⟨p.x + v0, p.y + v1, p.z + v2⟩
    match mapLookup tm identifier with
    | none => .error "targetMap has no element at identifier"
    | some none => .error "target point was never assigned"
    | some (some targetPoint) =>
      let d0 := targetPoint.x - p.x
      let d1 := targetPoint.y - p.y
      let d2 := targetPoint.z - p.z
      derivLoop tm parameters rest (identifier + 1)
        (((derivative.set (identifier * 3) (-2 * d0)).set
          (identifier * 3 + 1) (-2 * d1)).set (identifier * 3 + 2) (-2 * d2))

/-- GetDerivative: check the fixed then the moving mesh; reallocate the
caller's buffer when its size differs from fixedMesh->GetNumberOfPoints()*3
(note: the fixed mesh count, exactly as in the source), memset the whole
buffer to zero, then run the write loop.  The method is const and returns
only the filled buffer. -/
def GetDerivative (s : MetricState) (parameters : List ℚ)
    (derivative : List ℚ) : Except String (List ℚ) :=
  match s.m_FixedMesh with
  | none => .error "Fixed point set has not been assigned"
  | some fixedPts =>
    match s.m_MovingMesh with
    | none => .error "Moving point set has not been assigned"
    | some movingPts =>
      let resized :=
        if derivative.length ≠ fixedPts.length * 3 then
          List.replicate (fixedPts.length * 3) (0 : ℚ)
        else
          derivative
      let zeroed := resized.map fun _ => (0 : ℚ)
      derivLoop s.targetMap parameters movingPts 0 zeroed

/-- Proof helper: the displaced position p0 + d_i, where d_i is read from
the flat parameter vector at vertex identifier i (components 3i, 3i+1,
3i+2, exactly as the evaluator loops read them). -/
def displacedAt (parameters : List ℚ) (i : ℕ) (p : Point) : Point :=
  ⟨p.x + parameters.getD (i * 3) 0,
   p.y + parameters.getD (i * 3 + 1) 0,
   p.z + parameters.getD (i * 3 + 2) 0⟩

/-- The data-fidelity energy as the spec's words state it (the spec-side
definition for the refinement claim about GetValue): the sum over all
moving vertices of the squared Euclidean distance between the vertex's
target and its displaced position p0 + d. -/
def specDataFidelity (tgt : ℕ → Point) (movingPts : List Point)
    (parameters : List ℚ) : ℚ :=
  (Finset.range movingPts.length).sum fun i =>
    sqDist (tgt i) (displacedAt parameters i (movingPts.getD i default))

/-- Proof helper: the running best candidate of the inner scan once the
first fixed point has seeded it, updated only on a strictly smaller
squared distance. -/
def bestFrom (tp : Point) : Point → List Point → Point
  | b, [] => b
  | b, f :: rest =>
    if sqDist f tp < sqDist b tp then bestFrom tp f rest
    else bestFrom tp b rest

/-- Proof helper: the pure accumulation performed by the correspondence
loop when the transform is present. -/
def targetLoopPure (T : Transform) (fixedPts : List Point) :
    List Point → ℕ → List (ℕ × Option Point) → List (ℕ × Option Point)
  | [], _, m => m
  | p :: rest, identifier, m =>
    targetLoopPure T fixedPts rest (identifier + 1)
      (mapAssign m identifier (nearestScan (T.transformPoint p) fixedPts))

example : sqDist ⟨0, 0, 0⟩ ⟨1, 0, 0⟩ = 1 := by norm_num [sqDist]

example : nearestScan ⟨1, 0, 0⟩ [⟨0, 0, 0⟩, ⟨10, 0, 0⟩] = some ⟨0, 0, 0⟩ := by
  norm_num [nearestScan, scanLoop, distLtMin, sqDist]

/-- The identity transform used by the concrete scenarios below. -/
def idTransform : Transform := { pointMap := fun _ p => p, params := [] }

/-- Fixed-mesh point A = (0,0,0) of the spec's nearest-point scenario. -/
def ptA : Point := ⟨0, 0, 0⟩

/-- Fixed-mesh point B = (10,0,0) of the spec's nearest-point scenario. -/
def ptB : Point := ⟨10, 0, 0⟩

/-- The single moving vertex (1,0,0) of the spec's scenario. -/
def ptM : Point := ⟨1, 0, 0⟩

/-- Fully configured metric, before initialization: identity transform,
fixed mesh [A, B], moving mesh [M]. -/
def demoState : MetricState :=
  { m_Transform := some idTransform
    m_FixedMesh := some [ptA, ptB]
    m_MovingMesh := some [ptM]
    targetMap := []
    m_TargetPositionComputed := false }

/-- demoState after a successful Initialize: target of vertex 0 is A. -/
def demoStateInit : MetricState :=
  { demoState with
    targetMap := [(0, some ptA)]
    m_TargetPositionComputed := true }

/-- demoStateInit after GetValue cached the parameter vector (0,0,0) into
the transform. -/
def demoStateCached : MetricState :=
  { demoStateInit with
    m_Transform := some { idTransform with params := [0, 0, 0] } }

/-- A fully initialized state whose transform is unset: fixed mesh [A, B],
moving mesh [M], target of vertex 0 is A, but m_Transform is null. -/
def noTransformState : MetricState :=
  { m_Transform := none
    m_FixedMesh := some [ptA, ptB]
    m_MovingMesh := some [ptM]
    targetMap := [(0, some ptA)]
    m_TargetPositionComputed := true }

/-- A metric with nothing configured at all. -/
def emptyState : MetricState :=
  { m_Transform := none
    m_FixedMesh := none
    m_MovingMesh := none
    targetMap := []
    m_TargetPositionComputed := false }

/-- A state exposing the derivative sizing slip: the fixed mesh has one
point while the moving mesh has two vertices (targets already computed,
both A). -/
def sizeBugState : MetricState :=
  { m_Transform := some idTransform
    m_FixedMesh := some [ptA]
    m_MovingMesh := some [⟨1, 0, 0⟩, ⟨2, 0, 0⟩]
    targetMap := [(0, some ptA), (1, some ptA)]
    m_TargetPositionComputed := true }

/-- A configured state whose fixed mesh is present but holds zero points,
with one moving vertex. -/
def emptyFixedState : MetricState :=
  { m_Transform := some idTransform
    m_FixedMesh := some []
    m_MovingMesh := some [⟨1, 2, 3⟩]
    targetMap := []
    m_TargetPositionComputed := false }


/-! Helper lemmas -/

/-- A squared Euclidean distance is non-negative. -/
theorem sqDist_nonneg (a b : Point) : 0 ≤ sqDist a b := by
  unfold sqDist
  exact add_nonneg (add_nonneg (mul_self_nonneg _) (mul_self_nonneg _))
    (mul_self_nonneg _)

/-- The accumulation loop of GetValue never decreases the accumulator. -/
theorem valueLoop_lower_bound (tm : List (ℕ × Option Point))
    (parameters : List ℚ) :
    ∀ (mpts : List Point) (identifier : ℕ) (acc v : ℚ),
      valueLoop tm parameters mpts identifier acc = .ok v → acc ≤ v := by
  intro mpts
  induction mpts with
  | nil =>
    intro identifier acc v h
    simp only [valueLoop] at h
    exact le_of_eq (Except.ok.inj h)
  | cons p rest ih =>
    intro identifier acc v h
    simp only [valueLoop] at h
    cases hm : mapLookup tm identifier with
    | none => rw [hm] at h; exact absurd h (by simp)
    | some o =>
      cases o with
      | none => rw [hm] at h; exact absurd h (by simp)
      | some t =>
        rw [hm] at h
        have hrec := ih _ _ _ h
        have hd := sqDist_nonneg t
          ⟨p.x + parameters.getD (identifier * 3) 0,
           p.y + parameters.getD (identifier * 3 + 1) 0,
           p.z + parameters.getD (identifier * 3 + 2) 0⟩
        linarith

/-! C10: empty fixed mesh leaves the target point never assigned -/

/-- C10: with a non-null fixed mesh holding zero points and a non-empty
moving mesh, ComputeTargetPosition completes without error, sets
m_TargetPositionComputed to true, and the single stored target map entry
records the never-assigned targetPoint local (modelled as none). -/
theorem computeTargetPosition_emptyFixed_unassigned :
    ∃ s', ComputeTargetPosition emptyFixedState = .ok s' ∧
      s'.m_TargetPositionComputed = true ∧ s'.targetMap = [(0, none)] :=
  ⟨{ emptyFixedState with
      targetMap := [(0, none)], m_TargetPositionComputed := true },
    rfl, rfl, rfl⟩

/-! C1: derivative buffer is sized by the fixed mesh, not the moving mesh -/

/-- C1 (code bug witness): on a state with one fixed point and two moving
vertices, GetDerivative hands back a buffer of length 3 * N_fixed = 3,
not 3 * N_moving = 6, even though the caller supplied a buffer that
already had the claimed correct length 6; the second vertex's write lands
out of bounds (a no-op here, undefined behaviour in C++). -/
theorem getDerivative_buffer_sized_by_fixed_mesh :
    sizeBugState.m_MovingMesh = some [⟨1, 0, 0⟩, ⟨2, 0, 0⟩] ∧
    sizeBugState.m_FixedMesh = some [ptA] ∧
    GetDerivative sizeBugState (List.replicate 6 0) (List.replicate 6 1) =
      .ok [2, 0, 0] := by
  refine ⟨rfl, rfl, ?_⟩
  norm_num [GetDerivative, derivLoop, mapLookup, sizeBugState, ptA,
    List.replicate]

/-! C5: which configuration errors the evaluators actually re-check -/

/-- C5 (counterexample): GetDerivative never touches m_Transform, so with
the transform unset but both meshes present it completes successfully
instead of raising a configuration error. -/
theorem getDerivative_missing_transform_no_error :
    noTransformState.m_Transform = none ∧
    GetDerivative noTransformState [0, 0, 0] [] =
      .ok [2, 0, 0, 0, 0, 0] := by
  refine ⟨rfl, ?_⟩
  norm_num [GetDerivative, derivLoop, mapLookup, noTransformState, ptA, ptB,
    ptM, List.replicate]

/-- C5 (amended): each evaluator entry point re-checks the missing fixed
mesh and missing moving mesh configuration errors and fails when either
mesh is absent; a missing transform is not re-checked by GetDerivative. -/
theorem evaluators_recheck_mesh_presence (s : MetricState)
    (parameters buf : List ℚ)
    (h : s.m_FixedMesh = none ∨ s.m_MovingMesh = none) :
    (∃ e, GetValue s parameters = .error e) ∧
    (∃ e, GetDerivative s parameters buf = .error e) := by
  rcases h with h | h
  · exact ⟨⟨"Fixed point set has not been assigned", by
        simp [GetValue, h]⟩,
      ⟨"Fixed point set has not been assigned", by
        simp [GetDerivative, h]⟩⟩
  · cases hf : s.m_FixedMesh with
    | none =>
      exact ⟨⟨"Fixed point set has not been assigned", by
          simp [GetValue, hf]⟩,
        ⟨"Fixed point set has not been assigned", by
          simp [GetDerivative, hf]⟩⟩
    | some fpts =>
      exact ⟨⟨"Moving point set has not been assigned", by
          simp [GetValue, hf, h]⟩,
        ⟨"Moving point set has not been assigned", by
          simp [GetDerivative, hf, h]⟩⟩

/-- Witness for the amended C5 statement at a concrete unconfigured
state. -/
theorem evaluators_recheck_mesh_presence_witness :
    (∃ e, GetValue emptyState [] = .error e) ∧
    (∃ e, GetDerivative emptyState [] [] = .error e) :=
  evaluators_recheck_mesh_presence emptyState [] [] (Or.inl rfl)

/-! C6: Initialize fails without full configuration, leaving state alone -/

/-- C6: when any of the transform, moving mesh, or fixed mesh is unset,
Initialize raises a configuration error and produces no new state (in
particular the target map is not recomputed and the computed flag is not
set, since the exception is thrown before any mutation). -/
theorem initialize_requires_full_config (s : MetricState)
    (h : s.m_Transform = none ∨ s.m_MovingMesh = none ∨
      s.m_FixedMesh = none) :
    (∃ e, Initialize s = .error e) ∧ ∀ s', Initialize s ≠ .ok s' := by
  have he : ∃ e, Initialize s = .error e := by
    cases hT : s.m_Transform with
    | none => exact ⟨"Transform is not present", by simp [Initialize, hT]⟩
    | some T =>
      cases hM : s.m_MovingMesh with
      | none =>
        exact ⟨"MovingMesh is not present", by simp [Initialize, hT, hM]⟩
      | some mpts =>
        cases hF : s.m_FixedMesh with
        | none =>
          exact ⟨"FixedMesh is not present", by simp [Initialize, hT, hM, hF]⟩
        | some fpts =>
          rcases h with h | h | h
          · rw [hT] at h; exact absurd h (by simp)
          · rw [hM] at h; exact absurd h (by simp)
          · rw [hF] at h; exact absurd h (by simp)
  obtain ⟨e, he'⟩ := he
  refine ⟨⟨e, he'⟩, fun s' hok => ?_⟩
  rw [he'] at hok
  exact Except.noConfusion hok

/-- Witness for C6 at the fully unconfigured state. -/
theorem initialize_requires_full_config_witness :
    (∃ e, Initialize emptyState = .error e) ∧
    ∀ s', Initialize emptyState ≠ .ok s' :=
  initialize_requires_full_config emptyState (Or.inl rfl)

/-! C9: the derivative does not depend on the parameter vector -/

/-- The write loop of GetDerivative produces the same output for any two
parameter vectors: the displacement components it reads are dead
values. -/
theorem derivLoop_ignores_parameters (tm : List (ℕ × Option Point))
    (p1 p2 : List ℚ) :
    ∀ (mpts : List Point) (identifier : ℕ) (d : List ℚ),
      derivLoop tm p1 mpts identifier d = derivLoop tm p2 mpts identifier d := by
  intro mpts
  induction mpts with
  | nil => intro identifier d; rfl
  | cons p rest ih =>
    intro identifier d
    simp only [derivLoop]
    cases mapLookup tm identifier with
    | none => rfl
    | some o =>
      cases o with
      | none => rfl
      | some t => exact ih _ _

/-- C9: for a fixed metric state, GetDerivative returns identical results
for any two parameter vectors — the per-vertex displacement values read
from the parameters never influence the output. -/
theorem getDerivative_independent_of_parameters (s : MetricState)
    (p1 p2 buf : List ℚ) :
    GetDerivative s p1 buf = GetDerivative s p2 buf := by
  unfold GetDerivative
  cases s.m_FixedMesh with
  | none => rfl
  | some fpts =>
    cases s.m_MovingMesh with
    | none => rfl
    | some mpts => exact derivLoop_ignores_parameters _ _ _ _ _ _

/-! C8 and C3: GetValue -/

/-- Unfolding helper: a successful GetValue call decomposes into the
parameter-setter step and the accumulation loop. -/
theorem getValue_ok_elim (s : MetricState) (parameters : List ℚ) (v : ℚ)
    (s' : MetricState) (fps mpts : List Point)
    (hf : s.m_FixedMesh = some fps) (hm : s.m_MovingMesh = some mpts)
    (hok : GetValue s parameters = .ok (v, s')) :
    SetTransformParameters s parameters = .ok s' ∧
    valueLoop s.targetMap parameters mpts 0 0 = .ok v := by
  unfold GetValue at hok
  simp only [hf, hm] at hok
  cases hst : SetTransformParameters s parameters with
  | error e =>
    simp only [hst] at hok
    exact Except.noConfusion hok
  | ok s2 =>
    simp only [hst] at hok
    cases hvl : valueLoop s.targetMap parameters mpts 0 0 with
    | error e =>
      simp only [hvl] at hok
      exact Except.noConfusion hok
    | ok v2 =>
      simp only [hvl, Except.ok.injEq, Prod.mk.injEq] at hok
      obtain ⟨hv, hs⟩ := hok
      exact ⟨by rw [hs], by rw [hv]⟩

/-- C8: for every parameter vector of the required length and every pair
of meshes with the target map computed, a value returned by GetValue is
non-negative. -/
theorem getValue_nonneg (s : MetricState) (fps mpts : List Point)
    (parameters : List ℚ) (v : ℚ) (s' : MetricState)
    (hf : s.m_FixedMesh = some fps) (hm : s.m_MovingMesh = some mpts)
    (hp : parameters.length = 3 * mpts.length)
    (hc : s.m_TargetPositionComputed = true)
    (hok : GetValue s parameters = .ok (v, s')) : 0 ≤ v := by
  obtain ⟨-, hvl⟩ := getValue_ok_elim s parameters v s' fps mpts hf hm hok
  exact valueLoop_lower_bound s.targetMap parameters mpts 0 0 v hvl

/-- Witness for C8 at the spec's concrete scenario: target A = (0,0,0),
moving vertex (1,0,0), zero displacement; the returned energy is 1 ≥ 0. -/
theorem getValue_nonneg_witness :
    demoStateInit.m_FixedMesh = some [ptA, ptB] ∧
    demoStateInit.m_MovingMesh = some [ptM] ∧
    ([0, 0, 0] : List ℚ).length = 3 * ([ptM] : List Point).length ∧
    demoStateInit.m_TargetPositionComputed = true ∧
    GetValue demoStateInit [0, 0, 0] = .ok (1, demoStateCached) ∧
    (0 : ℚ) ≤ 1 := by
  have hok : GetValue demoStateInit [0, 0, 0] = .ok (1, demoStateCached) := by
    norm_num [GetValue, SetTransformParameters, valueLoop, mapLookup, sqDist,
      demoStateInit, demoStateCached, demoState, idTransform, ptA, ptB, ptM]
  exact ⟨rfl, rfl, rfl, rfl, hok,
    getValue_nonneg demoStateInit [ptA, ptB] [ptM] [0, 0, 0] 1
      demoStateCached rfl rfl rfl rfl hok⟩

/-- The accumulation loop matches the spec-side sum, for any starting
identifier whose target entries are all recorded. -/
theorem valueLoop_sum (tm : List (ℕ × Option Point)) (parameters : List ℚ)
    (tgt : ℕ → Point) :
    ∀ (mpts : List Point) (start : ℕ) (acc : ℚ),
      (∀ i, i < mpts.length →
        mapLookup tm (start + i) = some (some (tgt (start + i)))) →
      valueLoop tm parameters mpts start acc =
        .ok (acc + (Finset.range mpts.length).sum fun i =>
          sqDist (tgt (start + i))
            (displacedAt parameters (start + i) (mpts.getD i default))) := by
  intro mpts
  induction mpts with
  | nil =>
    intro start acc h
    simp [valueLoop]
  | cons p rest ih =>
    intro start acc h
    have h0 := h 0 (by simp)
    rw [Nat.add_zero] at h0
    have hrest : ∀ i, i < rest.length →
        mapLookup tm (start + 1 + i) = some (some (tgt (start + 1 + i))) := by
      intro i hi
      have := h (i + 1) (by simpa using Nat.succ_lt_succ hi)
      rwa [show start + (i + 1) = start + 1 + i by omega] at this
    have hrec := ih (start + 1)
      (acc + sqDist (tgt start) (displacedAt parameters start p)) hrest
    have hstep : valueLoop tm parameters (p :: rest) start acc =
        valueLoop tm parameters rest (start + 1)
          (acc + sqDist (tgt start) (displacedAt parameters start p)) := by
      simp only [valueLoop, h0]
      rfl
    rw [hstep, hrec]
    congr 1
    rw [List.length_cons, Finset.sum_range_succ']
    simp only [List.getD_cons_succ, List.getD_cons_zero, Nat.add_zero]
    have hidx : ((Finset.range rest.length).sum fun i =>
        sqDist (tgt (start + 1 + i))
          (displacedAt parameters (start + 1 + i) (rest.getD i default))) =
        (Finset.range rest.length).sum fun i =>
          sqDist (tgt (start + (i + 1)))
            (displacedAt parameters (start + (i + 1)) (rest.getD i default)) := by
      refine Finset.sum_congr rfl fun i _ => ?_
      rw [show start + 1 + i = start + (i + 1) by omega]
    rw [hidx]
    ring

/-- C3: a value returned by GetValue is the sum over all moving vertices
of the squared Euclidean distance between the vertex's recorded target and
its displaced position p0 + d, with d read from the parameter vector at
components 3i, 3i+1, 3i+2. -/
theorem getValue_is_sum_of_squared_distances (s : MetricState)
    (fps mpts : List Point) (tgt : ℕ → Point) (parameters : List ℚ)
    (v : ℚ) (s' : MetricState)
    (hf : s.m_FixedMesh = some fps) (hm : s.m_MovingMesh = some mpts)
    (hp : parameters.length = 3 * mpts.length)
    (ht : ∀ i, i < mpts.length →
      mapLookup s.targetMap i = some (some (tgt i)))
    (hok : GetValue s parameters = .ok (v, s')) :
    v = specDataFidelity tgt mpts parameters := by
  obtain ⟨-, hvl⟩ := getValue_ok_elim s parameters v s' fps mpts hf hm hok
  have hsum := valueLoop_sum s.targetMap parameters tgt mpts 0 0
    (fun i hi => by simpa using ht i hi)
  rw [hvl] at hsum
  have hv := Except.ok.inj hsum
  rw [hv]
  unfold specDataFidelity
  simp only [Nat.zero_add, zero_add]

/-- Witness for C3 at the spec's concrete scenario: the energy is exactly
1, the squared distance from (1,0,0) to its target (0,0,0). -/
theorem getValue_is_sum_witness :
    demoStateInit.m_FixedMesh = some [ptA, ptB] ∧
    demoStateInit.m_MovingMesh = some [ptM] ∧
    ([0, 0, 0] : List ℚ).length = 3 * ([ptM] : List Point).length ∧
    (∀ i, i < ([ptM] : List Point).length →
      mapLookup demoStateInit.targetMap i = some (some ptA)) ∧
    GetValue demoStateInit [0, 0, 0] = .ok (1, demoStateCached) ∧
    (1 : ℚ) = specDataFidelity (fun _ => ptA) [ptM] [0, 0, 0] := by
  have hok : GetValue demoStateInit [0, 0, 0] = .ok (1, demoStateCached) := by
    norm_num [GetValue, SetTransformParameters, valueLoop, mapLookup, sqDist,
      demoStateInit, demoStateCached, demoState, idTransform, ptA, ptB, ptM]
  have ht : ∀ i, i < ([ptM] : List Point).length →
      mapLookup demoStateInit.targetMap i = some (some ptA) := by
    intro i hi
    have : i = 0 := by simpa using hi
    subst this
    rfl
  exact ⟨rfl, rfl, rfl, ht, hok,
    getValue_is_sum_of_squared_distances demoStateInit [ptA, ptB] [ptM]
      (fun _ => ptA) [0, 0, 0] 1 demoStateCached rfl rfl rfl ht hok⟩

/-! C2: the gradient entries use the nominal position -/

/-- List.set at a different index leaves getD unchanged. -/
theorem getD_set_ne (l : List ℚ) (i k : ℕ) (a : ℚ) (h : i ≠ k) :
    (l.set i a).getD k 0 = l.getD k 0 := by
  rw [List.getD_eq_getElem?_getD, List.getD_eq_getElem?_getD,
    List.getElem?_set_ne h]

/-- List.set at an in-range index is read back by getD. -/
theorem getD_set_self (l : List ℚ) (i : ℕ) (a : ℚ) (h : i < l.length) :
    (l.set i a).getD i 0 = a := by
  rw [List.getD_eq_getElem?_getD, List.getElem?_set_self h]
  rfl

/-- The write loop of GetDerivative never touches buffer components below
3 * identifier. -/
theorem derivLoop_untouched_below (tm : List (ℕ × Option Point))
    (parameters : List ℚ) :
    ∀ (mpts : List Point) (identifier : ℕ) (d r : List ℚ),
      derivLoop tm parameters mpts identifier d = .ok r →
      ∀ k, k < identifier * 3 → r.getD k 0 = d.getD k 0 := by
  intro mpts
  induction mpts with
  | nil =>
    intro identifier d r h k hk
    simp only [derivLoop] at h
    rw [← Except.ok.inj h]
  | cons p rest ih =>
    intro identifier d r h k hk
    simp only [derivLoop] at h
    cases hm0 : mapLookup tm identifier with
    | none =>
      simp only [hm0] at h
      exact Except.noConfusion h
    | some o =>
      cases o with
      | none =>
        simp only [hm0] at h
        exact Except.noConfusion h
      | some t0 =>
        simp only [hm0] at h
        rw [ih (identifier + 1) _ r h k (by omega)]
        rw [getD_set_ne _ _ _ _ (by omega), getD_set_ne _ _ _ _ (by omega),
          getD_set_ne _ _ _ _ (by omega)]

/-- What the write loop of GetDerivative stores for each vertex it
reaches: components 3(identifier + j) .. 3(identifier + j) + 2 hold
-2 * (t - p0) for the vertex's target t and its nominal position p0,
provided the write lands inside the buffer. -/
theorem derivLoop_writes (tm : List (ℕ × Option Point))
    (parameters : List ℚ) :
    ∀ (mpts : List Point) (identifier : ℕ) (d r : List ℚ),
      derivLoop tm parameters mpts identifier d = .ok r →
      ∀ (j : ℕ) (hj : j < mpts.length) (t : Point),
        mapLookup tm (identifier + j) = some (some t) →
        (identifier + j) * 3 + 2 < d.length →
        r.getD ((identifier + j) * 3) 0 =
          -2 * (t.x - (mpts.get ⟨j, hj⟩).x) ∧
        r.getD ((identifier + j) * 3 + 1) 0 =
          -2 * (t.y - (mpts.get ⟨j, hj⟩).y) ∧
        r.getD ((identifier + j) * 3 + 2) 0 =
          -2 * (t.z - (mpts.get ⟨j, hj⟩).z) := by
  intro mpts
  induction mpts with
  | nil =>
    intro identifier d r h j hj
    exact absurd hj (by simp)
  | cons p rest ih =>
    intro identifier d r h j hj t ht hlen
    simp only [derivLoop] at h
    cases hm0 : mapLookup tm identifier with
    | none =>
      simp only [hm0] at h
      exact Except.noConfusion h
    | some o =>
      cases o with
      | none =>
        simp only [hm0] at h
        exact Except.noConfusion h
      | some t0 =>
        simp only [hm0] at h
        cases j with
        | zero =>
          simp only [Nat.add_zero] at ht hlen ⊢
          rw [hm0] at ht
          have ht0 : t0 = t := by
            have := Option.some.inj ht
            exact Option.some.inj this
          subst ht0
          have hpre := derivLoop_untouched_below tm parameters rest
            (identifier + 1) _ r h
          have hl1 : identifier * 3 < d.length := by omega
          have hl2 : identifier * 3 + 1 < d.length := by omega
          have hl3 : identifier * 3 + 2 < d.length := by omega
          refine ⟨?_, ?_, ?_⟩
          · rw [hpre (identifier * 3) (by omega)]
            rw [getD_set_ne _ _ _ _ (by omega),
              getD_set_ne _ _ _ _ (by omega),
              getD_set_self _ _ _ (by simpa [List.length_set] using hl1)]
            rfl
          · rw [hpre (identifier * 3 + 1) (by omega)]
            rw [getD_set_ne _ _ _ _ (by omega)]
            rw [getD_set_self _ _ _ (by simpa [List.length_set] using hl2)]
            rfl
          · rw [hpre (identifier * 3 + 2) (by omega)]
            rw [getD_set_self _ _ _ (by simpa [List.length_set] using hl3)]
            rfl
        | succ j' =>
          have hj' : j' < rest.length := by
            simpa using Nat.lt_of_succ_lt_succ hj
          have hadd : identifier + (j' + 1) = identifier + 1 + j' := by omega
          rw [hadd] at ht hlen ⊢
          have hlen' : (identifier + 1 + j') * 3 + 2 <
              ((((d.set (identifier * 3) (-2 * (t0.x - p.x))).set
                (identifier * 3 + 1) (-2 * (t0.y - p.y))).set
                (identifier * 3 + 2) (-2 * (t0.z - p.z)))).length := by
            simpa [List.length_set] using hlen
          have hres := ih (identifier + 1) _ r h j' hj' t ht hlen'
          simpa using hres

/-- Unfolding helper: a successful GetDerivative call runs the write loop
on a zero buffer of length 3 * N_fixed. -/
theorem getDerivative_ok_elim (s : MetricState) (parameters buf r : List ℚ)
    (fps mpts : List Point)
    (hf : s.m_FixedMesh = some fps) (hm : s.m_MovingMesh = some mpts)
    (hok : GetDerivative s parameters buf = .ok r) :
    ∃ zeroed : List ℚ, zeroed.length = fps.length * 3 ∧
      derivLoop s.targetMap parameters mpts 0 zeroed = .ok r := by
  unfold GetDerivative at hok
  simp only [hf, hm] at hok
  refine ⟨_, ?_, hok⟩
  by_cases hb : buf.length = fps.length * 3
  · simp [hb]
  · simp [hb]

/-- C2: every gradient entry written by GetDerivative is
-2 * (t - p0) componentwise, where t is the vertex's target map entry and
p0 its nominal (undisplaced) position — not the displaced position p0 + d
used by GetValue.  The bound i < N_fixed keeps the write inside the
allocated buffer (its violation is the out-of-bounds write recorded with
the sizing bug, undefined behaviour in C++). -/
theorem getDerivative_gradient_at_nominal (s : MetricState)
    (fps mpts : List Point) (i : ℕ) (t : Point) (parameters buf r : List ℚ)
    (hf : s.m_FixedMesh = some fps) (hm : s.m_MovingMesh = some mpts)
    (hi : i < mpts.length) (hbound : i < fps.length)
    (ht : mapLookup s.targetMap i = some (some t))
    (hok : GetDerivative s parameters buf = .ok r) :
    r.getD (i * 3) 0 = -2 * (t.x - (mpts.get ⟨i, hi⟩).x) ∧
    r.getD (i * 3 + 1) 0 = -2 * (t.y - (mpts.get ⟨i, hi⟩).y) ∧
    r.getD (i * 3 + 2) 0 = -2 * (t.z - (mpts.get ⟨i, hi⟩).z) := by
  obtain ⟨z, hzlen, hdl⟩ :=
    getDerivative_ok_elim s parameters buf r fps mpts hf hm hok
  have hlen : (0 + i) * 3 + 2 < z.length := by rw [hzlen]; omega
  have h := derivLoop_writes s.targetMap parameters mpts 0 z r hdl i hi t
    (by simpa using ht) hlen
  simpa using h

/-- Witness for C2: with a nonzero parameter vector (5,6,7), the gradient
for the single vertex (1,0,0) with target (0,0,0) is still (2,0,0) —
computed from the nominal position. -/
theorem getDerivative_gradient_at_nominal_witness :
    GetDerivative demoStateInit [5, 6, 7] [] = .ok [2, 0, 0, 0, 0, 0] ∧
    ([2, 0, 0, 0, 0, 0] : List ℚ).getD 0 0 = -2 * (ptA.x - ptM.x) ∧
    ([2, 0, 0, 0, 0, 0] : List ℚ).getD 1 0 = -2 * (ptA.y - ptM.y) ∧
    ([2, 0, 0, 0, 0, 0] : List ℚ).getD 2 0 = -2 * (ptA.z - ptM.z) := by
  have hok : GetDerivative demoStateInit [5, 6, 7] [] =
      .ok [2, 0, 0, 0, 0, 0] := by
    norm_num [GetDerivative, derivLoop, mapLookup, demoStateInit, demoState,
      ptA, ptB, ptM, List.replicate]
  have h := getDerivative_gradient_at_nominal demoStateInit [ptA, ptB] [ptM]
    0 ptA [5, 6, 7] [] [2, 0, 0, 0, 0, 0] rfl rfl (by norm_num) (by norm_num)
    rfl hok
  exact ⟨hok, by simpa using h⟩

/-! C4: the scan records the first strict minimum -/

/-- Once the scan has a candidate b with recorded minimum sqDist b tp, it
computes bestFrom. -/
theorem scanLoop_seeded (tp : Point) :
    ∀ (fs : List Point) (b : Point),
      scanLoop tp fs (some b) (some (sqDist b tp)) =
        some (bestFrom tp b fs) := by
  intro fs
  induction fs with
  | nil => intro b; rfl
  | cons f rest ih =>
    intro b
    simp only [scanLoop, bestFrom, distLtMin]
    by_cases hlt : sqDist f tp < sqDist b tp
    · rw [if_pos (decide_eq_true hlt), if_pos hlt]
      exact ih f
    · rw [if_neg (fun hc => hlt (of_decide_eq_true hc)), if_neg hlt]
      exact ih b

/-- On a non-empty fixed point list the scan returns the best candidate
seeded with the first point. -/
theorem nearestScan_cons (tp f : Point) (rest : List Point) :
    nearestScan tp (f :: rest) = some (bestFrom tp f rest) := by
  unfold nearestScan
  simp only [scanLoop, distLtMin, if_true]
  exact scanLoop_seeded tp rest f

/-- The best candidate minimizes the squared distance over the seed and
the remaining points. -/
theorem bestFrom_le (tp : Point) :
    ∀ (fs : List Point) (b : Point),
      sqDist (bestFrom tp b fs) tp ≤ sqDist b tp ∧
      ∀ q ∈ fs, sqDist (bestFrom tp b fs) tp ≤ sqDist q tp := by
  intro fs
  induction fs with
  | nil => intro b; exact ⟨le_refl _, by simp⟩
  | cons f rest ih =>
    intro b
    simp only [bestFrom]
    by_cases hlt : sqDist f tp < sqDist b tp
    · rw [if_pos hlt]
      obtain ⟨h1, h2⟩ := ih f
      refine ⟨le_trans h1 (le_of_lt hlt), ?_⟩
      intro q hq
      rcases List.mem_cons.mp hq with rfl | hq
      · exact h1
      · exact h2 q hq
    · rw [if_neg hlt]
      obtain ⟨h1, h2⟩ := ih b
      refine ⟨h1, ?_⟩
      intro q hq
      rcases List.mem_cons.mp hq with rfl | hq
      · exact le_trans h1 (le_of_not_lt hlt)
      · exact h2 q hq

/-- The best candidate is the first strict minimum: the seeded list splits
into a prefix of strictly worse points, the recorded point, and a suffix
of points no better. -/
theorem bestFrom_first (tp : Point) :
    ∀ (fs : List Point) (b : Point),
      ∃ pre post, b :: fs = pre ++ bestFrom tp b fs :: post ∧
        (∀ q ∈ pre, sqDist (bestFrom tp b fs) tp < sqDist q tp) ∧
        (∀ q ∈ post, sqDist (bestFrom tp b fs) tp ≤ sqDist q tp) := by
  intro fs
  induction fs with
  | nil =>
    intro b
    exact ⟨[], [], rfl, by simp, by simp⟩
  | cons f rest ih =>
    intro b
    simp only [bestFrom]
    by_cases hlt : sqDist f tp < sqDist b tp
    · rw [if_pos hlt]
      obtain ⟨pre, post, heq, hpre, hpost⟩ := ih f
      refine ⟨b :: pre, post, ?_, ?_, hpost⟩
      · rw [List.cons_append, ← heq]
      · intro q hq
        rcases List.mem_cons.mp hq with rfl | hq
        · exact lt_of_le_of_lt (bestFrom_le tp rest f).1 hlt
        · exact hpre q hq
    · rw [if_neg hlt]
      obtain ⟨pre, post, heq, hpre, hpost⟩ := ih b
      cases pre with
      | nil =>
        simp only [List.nil_append] at heq
        have hb : b = bestFrom tp b rest := (List.cons.inj heq).1
        have hrest : rest = post := (List.cons.inj heq).2
        refine ⟨[], f :: rest, ?_, by simp, ?_⟩
        · rw [List.nil_append, ← hb]
        · intro q hq
          rcases List.mem_cons.mp hq with rfl | hq
          · rw [← hb]; exact le_of_not_lt hlt
          · exact hpost q (hrest ▸ hq)
      | cons b0 pre' =>
        simp only [List.cons_append] at heq
        have hb0 : b = b0 := (List.cons.inj heq).1
        have hrest : rest = pre' ++ bestFrom tp b rest :: post :=
          (List.cons.inj heq).2
        have hltb : sqDist (bestFrom tp b rest) tp < sqDist b tp := by
          have := hpre b0 (List.mem_cons_self b0 pre')
          rwa [← hb0] at this
        refine ⟨b :: f :: pre', post, ?_, ?_, hpost⟩
        · rw [List.cons_append, List.cons_append, ← hrest]
        · intro q hq
          rcases List.mem_cons.mp hq with rfl | hq
          · exact hltb
          rcases List.mem_cons.mp hq with rfl | hq
          · exact lt_of_lt_of_le hltb (le_of_not_lt hlt)
          · exact hpre q (List.mem_cons_of_mem b0 hq)

/-- With the transform present, the correspondence loop never fails and
computes its pure counterpart. -/
theorem targetLoop_eq_pure (T : Transform) (fps : List Point) :
    ∀ (mpts : List Point) (identifier : ℕ) (m : List (ℕ × Option Point)),
      targetLoop (some T) fps mpts identifier m =
        .ok (targetLoopPure T fps mpts identifier m) := by
  intro mpts
  induction mpts with
  | nil => intro identifier m; rfl
  | cons p rest ih =>
    intro identifier m
    simp only [targetLoop, targetLoopPure]
    exact ih _ _

/-- Assignment followed by lookup of the same key. -/
theorem mapLookup_assign_self (m : List (ℕ × Option Point)) (k : ℕ)
    (v : Option Point) : mapLookup (mapAssign m k v) k = some v := by
  induction m with
  | nil => simp [mapAssign, mapLookup]
  | cons kv rest ih =>
    obtain ⟨k', v'⟩ := kv
    simp only [mapAssign]
    by_cases hk : k' = k
    · rw [if_pos hk]
      simp [mapLookup, hk]
    · rw [if_neg hk]
      simp only [mapLookup, hk, if_false]
      exact ih

/-- Assignment leaves lookups of other keys unchanged. -/
theorem mapLookup_assign_ne (m : List (ℕ × Option Point)) (k k' : ℕ)
    (v : Option Point) (h : k ≠ k') :
    mapLookup (mapAssign m k v) k' = mapLookup m k' := by
  induction m with
  | nil => simp [mapAssign, mapLookup, h]
  | cons kv rest ih =>
    obtain ⟨a, b⟩ := kv
    simp only [mapAssign]
    by_cases ha : a = k
    · rw [if_pos ha]
      subst ha
      simp [mapLookup, h]
    · rw [if_neg ha]
      by_cases ha' : a = k'
      · simp [mapLookup, ha']
      · simp only [mapLookup, ha', if_false]
        exact ih

/-- The correspondence loop leaves entries below the starting identifier
untouched. -/
theorem targetLoopPure_preserves_low (T : Transform) (fps : List Point) :
    ∀ (mpts : List Point) (start : ℕ) (m : List (ℕ × Option Point)) (k : ℕ),
      k < start →
      mapLookup (targetLoopPure T fps mpts start m) k = mapLookup m k := by
  intro mpts
  induction mpts with
  | nil => intro start m k hk; rfl
  | cons p rest ih =>
    intro start m k hk
    simp only [targetLoopPure]
    rw [ih (start + 1) _ k (by omega)]
    exact mapLookup_assign_ne m start k _ (by omega)

/-- Each moving vertex's entry after the correspondence loop is the result
of the inner scan at its transformed position. -/
theorem targetLoopPure_lookup (T : Transform) (fps : List Point) :
    ∀ (mpts : List Point) (start : ℕ) (m : List (ℕ × Option Point)) (i : ℕ),
      i < mpts.length →
      mapLookup (targetLoopPure T fps mpts start m) (start + i) =
        some (nearestScan (T.transformPoint (mpts.getD i default)) fps) := by
  intro mpts
  induction mpts with
  | nil => intro start m i hi; exact absurd hi (by simp)
  | cons p rest ih =>
    intro start m i hi
    cases i with
    | zero =>
      simp only [targetLoopPure, Nat.add_zero, List.getD_cons_zero]
      rw [targetLoopPure_preserves_low T fps rest (start + 1) _ start
        (by omega)]
      exact mapLookup_assign_self m start _
    | succ i' =>
      have hi' : i' < rest.length := by simpa using Nat.lt_of_succ_lt_succ hi
      simp only [targetLoopPure, List.getD_cons_succ]
      rw [show start + (i' + 1) = start + 1 + i' by omega]
      exact ih (start + 1) _ i' hi'

/-- Assigning a key absent from the map appends the pair. -/
theorem mapAssign_fresh (m : List (ℕ × Option Point)) (k : ℕ)
    (v : Option Point) (h : ∀ kv ∈ m, kv.1 ≠ k) :
    mapAssign m k v = m ++ [(k, v)] := by
  induction m with
  | nil => rfl
  | cons kv rest ih =>
    obtain ⟨a, b⟩ := kv
    simp only [mapAssign]
    rw [if_neg (h (a, b) (List.mem_cons_self _ _))]
    rw [List.cons_append]
    congr 1
    exact ih fun kv hkv => h kv (List.mem_cons_of_mem _ hkv)

/-- The keys produced by the correspondence loop: the accumulator's keys
followed by the consecutive identifiers of the processed vertices. -/
theorem targetLoopPure_keys (T : Transform) (fps : List Point) :
    ∀ (mpts : List Point) (start : ℕ) (m : List (ℕ × Option Point)),
      (∀ kv ∈ m, kv.1 < start) →
      (targetLoopPure T fps mpts start m).map Prod.fst =
        m.map Prod.fst ++ List.range' start mpts.length := by
  intro mpts
  induction mpts with
  | nil => intro start m hm; simp [targetLoopPure]
  | cons p rest ih =>
    intro start m hm
    simp only [targetLoopPure, List.length_cons]
    have hfresh := mapAssign_fresh m start
      (nearestScan (T.transformPoint p) fps)
      (fun kv hkv => Nat.ne_of_lt (hm kv hkv))
    rw [ih (start + 1) _ ?bound]
    case bound =>
      intro kv hkv
      rw [hfresh] at hkv
      rcases List.mem_append.mp hkv with h | h
      · exact lt_trans (hm kv h) (by omega)
      · have : kv = (start, nearestScan (T.transformPoint p) fps) := by
          simpa using h
        rw [this]
        omega
    rw [hfresh, List.map_append, List.range'_succ]
    simp

/-- C4: after a successful ComputeTargetPosition on a non-empty fixed
mesh, every moving vertex's recorded target is the first fixed vertex (in
traversal order) minimizing squared Euclidean distance to the transformed
moving point: all fixed vertices before it are strictly farther, all after
it no closer. -/
theorem computeTargetPosition_first_strict_min (s s' : MetricState)
    (f0 : Point) (fs mpts : List Point) (T : Transform)
    (hT : s.m_Transform = some T)
    (hf : s.m_FixedMesh = some (f0 :: fs)) (hm : s.m_MovingMesh = some mpts)
    (hok : ComputeTargetPosition s = .ok s')
    (i : ℕ) (hi : i < mpts.length) :
    ∃ res pre post,
      mapLookup s'.targetMap i = some (some res) ∧
      f0 :: fs = pre ++ res :: post ∧
      (∀ q ∈ pre,
        sqDist res (T.transformPoint (mpts.getD i default)) <
          sqDist q (T.transformPoint (mpts.getD i default))) ∧
      (∀ q ∈ post,
        sqDist res (T.transformPoint (mpts.getD i default)) ≤
          sqDist q (T.transformPoint (mpts.getD i default))) := by
  unfold ComputeTargetPosition at hok
  simp only [hf, hm, hT, targetLoop_eq_pure] at hok
  have hmap : s'.targetMap = targetLoopPure T (f0 :: fs) mpts 0 [] := by
    rw [← Except.ok.inj hok]
  have hl := targetLoopPure_lookup T (f0 :: fs) mpts 0 [] i hi
  rw [Nat.zero_add] at hl
  rw [nearestScan_cons] at hl
  obtain ⟨pre, post, heq, hpre, hpost⟩ :=
    bestFrom_first (T.transformPoint (mpts.getD i default)) fs f0
  exact ⟨bestFrom (T.transformPoint (mpts.getD i default)) f0 fs, pre, post,
    by rw [hmap, hl], heq, hpre, hpost⟩

/-- Witness for C4 at the spec's scenario: the target of (1,0,0) among
fixed points A = (0,0,0), B = (10,0,0) is A, with no closer predecessor
and no strictly closer successor. -/
theorem computeTargetPosition_first_strict_min_witness :
    demoState.m_Transform = some idTransform ∧
    demoState.m_FixedMesh = some [ptA, ptB] ∧
    demoState.m_MovingMesh = some [ptM] ∧
    ComputeTargetPosition demoState = .ok demoStateInit ∧
    (0 : ℕ) < ([ptM] : List Point).length ∧
    ∃ res pre post,
      mapLookup demoStateInit.targetMap 0 = some (some res) ∧
      [ptA, ptB] = pre ++ res :: post ∧
      (∀ q ∈ pre,
        sqDist res (idTransform.transformPoint
          (([ptM] : List Point).getD 0 default)) <
          sqDist q (idTransform.transformPoint
            (([ptM] : List Point).getD 0 default))) ∧
      (∀ q ∈ post,
        sqDist res (idTransform.transformPoint
          (([ptM] : List Point).getD 0 default)) ≤
          sqDist q (idTransform.transformPoint
            (([ptM] : List Point).getD 0 default))) := by
  have hok : ComputeTargetPosition demoState = .ok demoStateInit := by
    norm_num [ComputeTargetPosition, targetLoop, nearestScan, scanLoop,
      distLtMin, mapAssign, sqDist, Transform.transformPoint, demoState,
      demoStateInit, idTransform, ptA, ptB, ptM]
  exact ⟨rfl, rfl, rfl, hok, by norm_num,
    computeTargetPosition_first_strict_min demoState demoStateInit ptA [ptB]
      [ptM] idTransform rfl rfl rfl hok 0 (by norm_num)⟩

/-! C7: the target map is complete after Initialize and never mutated -/

/-- The parameter setter does not touch the target map. -/
theorem setTransformParameters_targetMap (s s2 : MetricState)
    (parameters : List ℚ)
    (h : SetTransformParameters s parameters = .ok s2) :
    s2.targetMap = s.targetMap := by
  unfold SetTransformParameters at h
  cases hT : s.m_Transform with
  | none =>
    simp only [hT] at h
    exact Except.noConfusion h
  | some T =>
    simp only [hT] at h
    rw [← Except.ok.inj h]

/-- GetValue does not touch the target map of the state it returns. -/
theorem getValue_preserves_targetMap (s : MetricState)
    (parameters : List ℚ) (v : ℚ) (s'' : MetricState)
    (h : GetValue s parameters = .ok (v, s'')) :
    s''.targetMap = s.targetMap := by
  cases hf : s.m_FixedMesh with
  | none =>
    unfold GetValue at h
    simp only [hf] at h
    exact Except.noConfusion h
  | some fps =>
    cases hm : s.m_MovingMesh with
    | none =>
      unfold GetValue at h
      simp only [hf, hm] at h
      exact Except.noConfusion h
    | some mpts =>
      obtain ⟨hst, -⟩ := getValue_ok_elim s parameters v s'' fps mpts hf hm h
      exact setTransformParameters_targetMap s s'' parameters hst

/-- C7: after a successful Initialize, the target map has exactly one
entry per moving-vertex identifier, in order 0 .. N_moving - 1, and no
subsequent GetValue call (the only evaluator that returns a state; the
const GetDerivative returns only the output buffer) removes or reassigns
any entry. -/
theorem initialize_targetMap_complete_and_stable (s s' : MetricState)
    (mpts : List Point) (hm : s.m_MovingMesh = some mpts)
    (hok : Initialize s = .ok s') :
    s'.targetMap.map Prod.fst = List.range mpts.length ∧
    ∀ (parameters : List ℚ) (v : ℚ) (s'' : MetricState),
      GetValue s' parameters = .ok (v, s'') →
        s''.targetMap = s'.targetMap := by
  constructor
  · unfold Initialize at hok
    cases hT : s.m_Transform with
    | none =>
      simp only [hT] at hok
      exact Except.noConfusion hok
    | some T =>
      simp only [hT, hm] at hok
      cases hf : s.m_FixedMesh with
      | none =>
        simp only [hf] at hok
        exact Except.noConfusion hok
      | some fps =>
        simp only [hf] at hok
        unfold ComputeTargetPosition at hok
        simp only [hf, hm, hT, targetLoop_eq_pure] at hok
        have hs' : s'.targetMap = targetLoopPure T fps mpts 0 [] := by
          rw [← Except.ok.inj hok]
        rw [hs', targetLoopPure_keys T fps mpts 0 [] (by simp)]
        simp [List.range_eq_range']
  · intro parameters v s'' h
    exact getValue_preserves_targetMap s' parameters v s'' h

/-- Witness for C7 at the spec's scenario. -/
theorem initialize_targetMap_complete_and_stable_witness :
    demoState.m_MovingMesh = some [ptM] ∧
    Initialize demoState = .ok demoStateInit ∧
    demoStateInit.targetMap.map Prod.fst =
      List.range ([ptM] : List Point).length ∧
    ∀ (parameters : List ℚ) (v : ℚ) (s'' : MetricState),
      GetValue demoStateInit parameters = .ok (v, s'') →
        s''.targetMap = demoStateInit.targetMap := by
  have hok : Initialize demoState = .ok demoStateInit := by
    norm_num [Initialize, ComputeTargetPosition, targetLoop, nearestScan,
      scanLoop, distLtMin, mapAssign, sqDist, Transform.transformPoint,
      demoState, demoStateInit, idTransform, ptA, ptB, ptM]
  have h := initialize_targetMap_complete_and_stable demoState demoStateInit
    [ptM] rfl hok
  exact ⟨rfl, hok, h.1, h.2⟩
